import Mathlib

/-
Verification development for the file staging and management engine of the
cosmic-remix-universe-forge repository.

The embedding covers:
  * the per-record upload progress simulator of src/components/FileUpload.tsx
    (simulateUpload), modelled as a state machine driven by the sequence of
    values returned by Math.random();
  * file validation and batch staging (validateFile, handleFiles) from the
    same component, with toast notifications and the onFileSelect callback
    made explicit as data;
  * preview generation (generatePreview), with the settling behaviour of the
    FileReader promise made explicit;
  * the query engine of src/components/FileManager.tsx
    (getFileCategory, filteredAndSortedFiles, selection and deletion handlers).

JavaScript strings are modelled as Lean String values, with the operations
toLowerCase / startsWith / includes re-implemented over the underlying
character lists so that they evaluate inside the kernel.  toLowerCase is
modelled at ASCII precision via Char.toLower, which is what every mime type
and file name in the claims exercises.  Array.prototype.sort with a
comparator is, per the ECMAScript specification, a stable sort ordered by
the sign of the comparator; for a consistent comparator that output is
unique, and it is modelled here by List.insertionSort on the relation
"comparator result is not positive".
-/

/-- JS string operation: true when the character list `s` begins with `pat`.
Models String.prototype.startsWith on the underlying characters. -/
def listLeadsWith : List Char → List Char → Bool
  | [], _ => true
  | _ :: _, [] => false
  | a :: pat, b :: s => a == b && listLeadsWith pat s

/-- JS string operation: true when `pat` occurs contiguously inside `s`.
Models String.prototype.includes on the underlying characters. -/
def listHasSub : List Char → List Char → Bool
  | [], pat => listLeadsWith pat []
  | c :: t, pat => listLeadsWith pat (c :: t) || listHasSub t pat

/-- Model of JS s.startsWith(pat). -/
def jsStartsWith (s pat : String) : Bool :=
  listLeadsWith pat.data s.data

/-- Model of JS s.includes(pat). -/
def strIncludes (s pat : String) : Bool :=
  listHasSub s.data pat.data

/-- Model of JS s.toLowerCase() at ASCII precision. -/
def jsToLower (s : String) : String :=
  ⟨s.data.map Char.toLower⟩

/-- Status of a staged file, the status field of FileWithProgress in
src/components/FileUpload.tsx: uploading, completed or error. -/
inductive Status where
  | uploading
  | completed
  | error
  deriving DecidableEq

/-- State of one simulateUpload task in src/components/FileUpload.tsx:
the local progress accumulator, the status stored on the record, and
whether the interval is still installed (clearInterval has not run). -/
structure SimState where
  progress : ℚ
  status : Status
  active : Bool
  deriving DecidableEq

/-- Initial state of a freshly staged record: progress 0, status
uploading, interval running. -/
def simInit : SimState :=
  { progress := 0, status := Status.uploading, active := true }

/-- The increment added on one tick of simulateUpload: Math.random() * 15,
where `r` is the value returned by Math.random(). -/
def tickIncrement (r : ℚ) : ℚ :=
  r * 15

/-- One interval callback of simulateUpload, driven by the Math.random()
value `r`.  Mirrors: progress += Math.random() * 15; if progress >= 100
then set progress 100, clearInterval, write status completed; else write
the new progress.  After clearInterval the callback never runs again,
modelled by the inactive state absorbing every further tick. -/
def simTick (s : SimState) (r : ℚ) : SimState :=
  if s.active then
    if 100 ≤ s.progress + tickIncrement r then
      { progress := 100, status := Status.completed, active := false }
    else
      { progress := s.progress + tickIncrement r, status := s.status, active := true }
  else s

/-- Run the simulator from state `s` over a sequence of Math.random()
draws. -/
def simRun (s : SimState) (rs : List ℚ) : SimState :=
  rs.foldl simTick s

/-- Invariant of the simulateUpload state machine. -/
def SimInv (s : SimState) : Prop :=
  0 ≤ s.progress ∧ s.progress ≤ 100 ∧
  (s.status = Status.completed ↔ s.progress = 100) ∧
  (s.active = false ↔ s.status = Status.completed) ∧
  s.status ≠ Status.error

/-- A raw browser File as consumed by handleFiles: name, size in bytes and
mime type. -/
structure RawFile where
  name : String
  size : Nat
  type : String
  deriving DecidableEq

/-- A toast notification as issued through the toast hook: title,
description, and whether the destructive (error) variant was used. -/
structure Toast where
  title : String
  description : String
  destructive : Bool
  deriving DecidableEq

/-- The toast issued by validateFile on an oversize file:
title "File too large", description carrying the file name and the
configured limit in MB, destructive variant. -/
def oversizeToast (maxFileSize : Nat) (f : RawFile) : Toast :=
  { title := "File too large"
    description := f.name ++ " exceeds " ++ toString maxFileSize ++ "MB limit"
    destructive := true }

/-- validateFile from src/components/FileUpload.tsx: rejects exactly when
file.size > maxFileSize * 1024 * 1024, emitting one destructive toast; the
returned pair is the boolean verdict together with the toasts emitted by
the call.  maxFileSize is the configured limit in whole MB (default 25). -/
def validateFile (maxFileSize : Nat) (f : RawFile) : Bool × List Toast :=
  if maxFileSize * 1024 * 1024 < f.size then
    (false, [oversizeToast maxFileSize f])
  else
    (true, [])

/-- A staged record as built inside handleFiles: the raw file data spread
together with a fresh id, progress 0, status uploading and the settled
preview.  `idOf` stands for the Date.now/Math.random id assignment and
`previewOf` for the settled value of the generatePreview promise. -/
structure StagedFile where
  id : String
  name : String
  size : Nat
  type : String
  progress : ℚ
  preview : Option String
  status : Status
  deriving DecidableEq

/-- Build the FileWithProgress record pushed by handleFiles for an accepted
file. -/
def mkStaged (idOf : RawFile → String) (previewOf : RawFile → Option String)
    (f : RawFile) : StagedFile :=
  { id := idOf f, name := f.name, size := f.size, type := f.type,
    progress := 0, preview := previewOf f, status := Status.uploading }

/-- The validation loop of handleFiles over a batch: for each file in
order, validateFile runs (emitting its toasts); accepted files are staged
and collected in order.  Returns the new records and the toasts emitted by
validation, in emission order. -/
def stageBatch (maxFileSize : Nat) (idOf : RawFile → String)
    (previewOf : RawFile → Option String) :
    List RawFile → List StagedFile × List Toast
  | [] => ([], [])
  | f :: fs =>
    let v := validateFile maxFileSize f
    let rest := stageBatch maxFileSize idOf previewOf fs
    if v.1 then (mkStaged idOf previewOf f :: rest.1, v.2 ++ rest.2)
    else (rest.1, v.2 ++ rest.2)

/-- The toast issued at the end of handleFiles:
"Upload completed" / "n file(s) uploaded successfully", default variant. -/
def uploadCompletedToast (n : Nat) : Toast :=
  { title := "Upload completed"
    description := toString n ++ " file(s) uploaded successfully"
    destructive := false }

/-- Observable outcome of one handleFiles call: the selectedFiles
collection after insertion, every toast emitted in order, and the list of
onFileSelect invocations (each with its argument). -/
structure HandleResult where
  staged : List StagedFile
  toasts : List Toast
  callbacks : List (List StagedFile)
  deriving DecidableEq

/-- handleFiles from src/components/FileUpload.tsx on a non-null file
list: validate each file (collecting rejection toasts), stage the accepted
ones, append to or replace the previous collection according to
`multiple`, then, after the simulated uploads settle, invoke onFileSelect
once with the new records and emit the completion toast. -/
def handleFiles (maxFileSize : Nat) (multiple : Bool)
    (idOf : RawFile → String) (previewOf : RawFile → Option String)
    (prev : List StagedFile) (files : List RawFile) : HandleResult :=
  let st := stageBatch maxFileSize idOf previewOf files
  { staged := if multiple then prev ++ st.1 else st.1
    toasts := st.2 ++ [uploadCompletedToast st.1.length]
    callbacks := [st.1] }

/-- Outcome of the FileReader read performed by generatePreview: either the
load event fires with the encoded data URI, or the read fails (the error
event fires instead of load). -/
inductive ReadOutcome where
  | success (data : String)
  | failure
  deriving DecidableEq

/-- Settling behaviour of the promise returned by generatePreview: either
it resolves with an optional preview payload, or it never settles. -/
inductive PreviewResult where
  | resolved (p : Option String)
  | pending
  deriving DecidableEq

/-- generatePreview from src/components/FileUpload.tsx.  For a non-image
file it returns undefined immediately.  For an image file it builds a
promise whose executor installs only reader.onload — no onerror and no
onabort handler — so when the read fails no handler ever calls resolve and
the promise never settles. -/
def generatePreview (fileType : String) (outcome : ReadOutcome) : PreviewResult :=
  if jsStartsWith fileType "image/" then
    match outcome with
    | ReadOutcome.success d => PreviewResult.resolved (some d)
    | ReadOutcome.failure => PreviewResult.pending
  else PreviewResult.resolved none

/-- A record handed to the FileManager component, the FileWithProgress
interface of src/components/FileManager.tsx restricted to the fields its
logic reads (tags and the stored category field are never read by the
component). -/
structure MFile where
  id : String
  name : String
  size : Nat
  type : String
  progress : ℚ
  status : Status
  preview : Option String
  uploadDate : Option Int
  deriving DecidableEq

/-- Sort key of the FileManager: the sortBy state, one of name, size,
date. -/
inductive SortKey where
  | name
  | size
  | date
  deriving DecidableEq

/-- Sort direction of the FileManager: the sortOrder state. -/
inductive SortOrder where
  | asc
  | desc
  deriving DecidableEq

/-- getFileCategory from src/components/FileManager.tsx: classify a record
by its mime type using the prefix and substring tests of the source, in
source order, defaulting to "other". -/
def getFileCategory (f : MFile) : String :=
  if jsStartsWith f.type "image/" then "image"
  else if jsStartsWith f.type "video/" then "video"
  else if jsStartsWith f.type "audio/" then "audio"
  else if strIncludes f.type "pdf" then "pdf"
  else if strIncludes f.type "doc" then "document"
  else if strIncludes f.type "zip" || strIncludes f.type "rar" then "archive"
  else "other"

/-- The filter predicate of filteredAndSortedFiles: the lower-cased name
contains the lower-cased search term, and either the filter is "all" or
the derived category equals the filter. -/
def matchesQuery (searchTerm filterType : String) (f : MFile) : Bool :=
  strIncludes (jsToLower f.name) (jsToLower searchTerm) &&
    (filterType == "all" || getFileCategory f == filterType)

/-- The comparison value computed by the sort callback of
filteredAndSortedFiles before the direction is applied.  `locCmp` stands
for String.prototype.localeCompare of the ambient locale; `now` is the
timestamp new Date() yields at this evaluation, used in place of a missing
uploadDate. -/
def fileComparison (locCmp : String → String → Int) (sortBy : SortKey)
    (now : Int) (a b : MFile) : Int :=
  match sortBy with
  | SortKey.name => locCmp a.name b.name
  | SortKey.size => (a.size : Int) - (b.size : Int)
  | SortKey.date => a.uploadDate.getD now - b.uploadDate.getD now

/-- The full comparator passed to sort: the comparison for ascending
order, its negation for descending order. -/
def signedComparison (locCmp : String → String → Int) (sortBy : SortKey)
    (sortOrder : SortOrder) (now : Int) (a b : MFile) : Int :=
  match sortOrder with
  | SortOrder.asc => fileComparison locCmp sortBy now a b
  | SortOrder.desc => - fileComparison locCmp sortBy now a b

/-- Ordering relation induced by the comparator: `a` need not follow `b`
exactly when the comparator is not positive.  A stable sort on this
relation is the Array.prototype.sort output for a consistent comparator. -/
def fileLE (locCmp : String → String → Int) (sortBy : SortKey)
    (sortOrder : SortOrder) (now : Int) (a b : MFile) : Prop :=
  signedComparison locCmp sortBy sortOrder now a b ≤ 0

instance (locCmp : String → String → Int) (sortBy : SortKey)
    (sortOrder : SortOrder) (now : Int) :
    DecidableRel (fileLE locCmp sortBy sortOrder now) :=
  fun _ _ => Int.decLe _ _

/-- The same ordering relation lifted to position-tagged records, used to
state stability of the sort. -/
def tagLE (locCmp : String → String → Int) (sortBy : SortKey)
    (sortOrder : SortOrder) (now : Int) (a b : ℕ × MFile) : Prop :=
  fileLE locCmp sortBy sortOrder now a.2 b.2

instance (locCmp : String → String → Int) (sortBy : SortKey)
    (sortOrder : SortOrder) (now : Int) :
    DecidableRel (tagLE locCmp sortBy sortOrder now) :=
  fun _ _ => Int.decLe _ _

/-- filteredAndSortedFiles from src/components/FileManager.tsx: filter the
collection by matchesQuery, then stable-sort by the signed comparator. -/
def filteredAndSortedFiles (locCmp : String → String → Int)
    (searchTerm filterType : String) (sortBy : SortKey)
    (sortOrder : SortOrder) (now : Int) (files : List MFile) : List MFile :=
  List.insertionSort (fileLE locCmp sortBy sortOrder now)
    (files.filter (matchesQuery searchTerm filterType))

/-- The aggregate size displayed in the stats row:
filteredAndSortedFiles.reduce((acc, file) => acc + file.size, 0). -/
def viewTotalSize (locCmp : String → String → Int)
    (searchTerm filterType : String) (sortBy : SortKey)
    (sortOrder : SortOrder) (now : Int) (files : List MFile) : Nat :=
  (filteredAndSortedFiles locCmp searchTerm filterType sortBy sortOrder now files).foldl
    (fun acc f => acc + f.size) 0

/-- toggleSelection as performed inside handleFileClick: remove the id if
present, else append it. -/
def toggleSelection (selected : List String) (fid : String) : List String :=
  if selected.contains fid then selected.filter (fun x => x ≠ fid)
  else selected ++ [fid]

/-- handleFileClick from src/components/FileManager.tsx, restricted to its
effect on the selection state: toggles the clicked id when multi-select is
allowed, otherwise leaves the selection unchanged. -/
def handleFileClick (allowMultiSelect : Bool) (selected : List String)
    (f : MFile) : List String :=
  if allowMultiSelect then toggleSelection selected f.id else selected

/-- Observable outcome of handleDelete: the selection state afterwards,
the id forwarded to onFileDelete, and the toast emitted. -/
structure DeleteEffect where
  selectedAfter : List String
  deletedId : Option String
  toasts : List Toast
  deriving DecidableEq

/-- handleDelete from src/components/FileManager.tsx: forwards the id to
onFileDelete and emits an informational toast.  The source contains no
setSelectedFiles call here, so the selection state is returned unchanged. -/
def handleDelete (selected : List String) (fid : String) : DeleteEffect :=
  { selectedAfter := selected
    deletedId := some fid
    toasts := [{ title := "File deleted"
                 description := "File has been removed from storage"
                 destructive := false }] }

/-- A locale comparison collapsing every pair, used only to instantiate
examples whose sort key is not name. -/
def trivialLocCmp : String → String → Int :=
  fun _ _ => 0

/-- Example record: undated text file, used in the date-sort example. -/
def undatedFile : MFile :=
  { id := "a", name := "a.txt", size := 1, type := "text/plain",
    progress := 100, status := Status.completed, preview := none,
    uploadDate := none }

/-- Example record: text file dated 200, used in the date-sort example. -/
def datedFile : MFile :=
  { id := "b", name := "b.txt", size := 2, type := "text/plain",
    progress := 100, status := Status.completed, preview := none,
    uploadDate := some 200 }

/-- Example record of size 50 for the size-sort scenario. -/
def sizeFile50 : MFile :=
  { id := "s50", name := "fifty.txt", size := 50, type := "text/plain",
    progress := 100, status := Status.completed, preview := none,
    uploadDate := none }

/-- Example record of size 10 for the size-sort scenario. -/
def sizeFile10 : MFile :=
  { id := "s10", name := "ten.txt", size := 10, type := "text/plain",
    progress := 100, status := Status.completed, preview := none,
    uploadDate := none }

/-- Example record of size 30 for the size-sort scenario. -/
def sizeFile30 : MFile :=
  { id := "s30", name := "thirty.txt", size := 30, type := "text/plain",
    progress := 100, status := Status.completed, preview := none,
    uploadDate := none }

/-- The size-sort scenario collection, sizes 50, 10, 30 in insertion
order. -/
def sizeDemo : List MFile :=
  [sizeFile50, sizeFile10, sizeFile30]

/-- Example record whose mime type is the string image/pdf: it contains
pdf but matches the image prefix rule first. -/
def imagePdfFile : MFile :=
  { id := "x", name := "weird", size := 1, type := "image/pdf",
    progress := 100, status := Status.completed, preview := none,
    uploadDate := none }

/-- Example record: a pdf document. -/
def pdfFile : MFile :=
  { id := "p", name := "report.pdf", size := 3, type := "application/pdf",
    progress := 100, status := Status.completed, preview := none,
    uploadDate := none }

/-- Example record: a png image. -/
def pngFile : MFile :=
  { id := "g", name := "photo.png", size := 4, type := "image/png",
    progress := 100, status := Status.completed, preview := none,
    uploadDate := none }

/-- Example record: a docx word document, with its standard mime type. -/
def docxFile : MFile :=
  { id := "d", name := "notes.docx", size := 5,
    type := "application/vnd.openxmlformats-officedocument.wordprocessingml.document",
    progress := 100, status := Status.completed, preview := none,
    uploadDate := none }

/-- Example raw file one byte above the default 25MB limit. -/
def oversizedRaw : RawFile :=
  { name := "big.bin", size := 26214401, type := "application/x" }

/-- Accessor: the invariant bounds progress below by 0. -/
theorem simInv_nonneg (s : SimState) (h : SimInv s) : 0 ≤ s.progress := by
  unfold SimInv at h; exact h.1

/-- Accessor: the invariant bounds progress above by 100. -/
theorem simInv_le100 (s : SimState) (h : SimInv s) : s.progress ≤ 100 := by
  unfold SimInv at h; exact h.2.1

/-- Accessor: status is completed exactly when progress is 100. -/
theorem simInv_completed_iff (s : SimState) (h : SimInv s) :
    s.status = Status.completed ↔ s.progress = 100 := by
  unfold SimInv at h; exact h.2.2.1

/-- Accessor: the interval is cleared exactly when status is completed. -/
theorem simInv_inactive_iff (s : SimState) (h : SimInv s) :
    s.active = false ↔ s.status = Status.completed := by
  unfold SimInv at h; exact h.2.2.2.1

/-- The initial simulator state satisfies the invariant. -/
theorem simInv_init : SimInv simInit := by
  unfold SimInv simInit
  refine ⟨le_refl 0, by norm_num, ?_, ?_, by decide⟩
  · constructor
    · intro h; exact Status.noConfusion h
    · intro h; norm_num at h
  · constructor
    · intro h; exact Bool.noConfusion h
    · intro h; exact Status.noConfusion h

/-- One tick preserves the simulator invariant when the drawn value is
non-negative. -/
theorem simTick_inv (s : SimState) (r : ℚ) (hs : SimInv s) (hr : 0 ≤ r) :
    SimInv (simTick s r) := by
  unfold SimInv at hs
  obtain ⟨h0, h1, h2, h3, h4⟩ := hs
  unfold simTick
  by_cases ha : s.active = true
  · rw [if_pos ha]
    by_cases hp : 100 ≤ s.progress + tickIncrement r
    · rw [if_pos hp]
      unfold SimInv
      refine ⟨by norm_num, le_refl 100, by simp, by simp, by decide⟩
    · rw [if_neg hp]
      push_neg at hp
      have hst : s.status ≠ Status.completed := by
        intro hcc
        have hfa : s.active = false := h3.mpr hcc
        rw [hfa] at ha
        exact Bool.noConfusion ha
      have hinc : 0 ≤ tickIncrement r := by
        unfold tickIncrement; positivity
      unfold SimInv
      dsimp only
      refine ⟨by linarith, by linarith, ?_, ?_, h4⟩
      · constructor
        · intro hcc; exact absurd hcc hst
        · intro hpp; exact absurd hpp (by linarith)
      · constructor
        · intro hff; exact Bool.noConfusion hff
        · intro hcc; exact absurd hcc hst
  · rw [if_neg ha]
    unfold SimInv
    exact ⟨h0, h1, h2, h3, h4⟩

/-- One tick never decreases progress when the drawn value is
non-negative. -/
theorem simTick_progress_le (s : SimState) (r : ℚ) (hs : SimInv s) (hr : 0 ≤ r) :
    s.progress ≤ (simTick s r).progress := by
  have h1 := simInv_le100 s hs
  unfold simTick
  by_cases ha : s.active = true
  · rw [if_pos ha]
    by_cases hp : 100 ≤ s.progress + tickIncrement r
    · rw [if_pos hp]; exact h1
    · rw [if_neg hp]
      have hinc : 0 ≤ tickIncrement r := by unfold tickIncrement; positivity
      show s.progress ≤ s.progress + tickIncrement r
      linarith
  · rw [if_neg ha]

/-- A completed record is frozen: the tick callback does nothing once the
interval is cleared. -/
theorem simTick_frozen (s : SimState) (r : ℚ) (hs : SimInv s)
    (hc : s.status = Status.completed) : simTick s r = s := by
  have ha : s.active = false := (simInv_inactive_iff s hs).mpr hc
  unfold simTick
  rw [if_neg (by rw [ha]; exact fun h => Bool.noConfusion h)]

/-- Running the simulator preserves the invariant. -/
theorem simRun_inv (rs : List ℚ) : ∀ s : SimState, SimInv s →
    (∀ r ∈ rs, 0 ≤ r) → SimInv (simRun s rs) := by
  induction rs with
  | nil => intro s hs _; exact hs
  | cons r rs ih =>
    intro s hs hr
    exact ih (simTick s r) (simTick_inv s r hs (hr r (List.mem_cons_self r rs)))
      (fun x hx => hr x (List.mem_cons_of_mem r hx))

/-- Running the simulator never decreases progress. -/
theorem simRun_progress_le (rs : List ℚ) : ∀ s : SimState, SimInv s →
    (∀ r ∈ rs, 0 ≤ r) → s.progress ≤ (simRun s rs).progress := by
  induction rs with
  | nil => intro s _ _; exact le_rfl
  | cons r rs ih =>
    intro s hs hr
    have hr0 : 0 ≤ r := hr r (List.mem_cons_self r rs)
    exact le_trans (simTick_progress_le s r hs hr0)
      (ih (simTick s r) (simTick_inv s r hs hr0)
        (fun x hx => hr x (List.mem_cons_of_mem r hx)))

/-- Running the simulator from a completed state changes nothing. -/
theorem simRun_frozen (rs : List ℚ) : ∀ s : SimState, SimInv s →
    s.status = Status.completed → simRun s rs = s := by
  induction rs with
  | nil => intro s _ _; rfl
  | cons r rs ih =>
    intro s hs hc
    calc simRun s (r :: rs) = simRun (simTick s r) rs := rfl
    _ = simRun s rs := by rw [simTick_frozen s r hs hc]
    _ = s := ih s hs hc

/-- When the drawn increments add up to at least the remaining distance to
100, the run ends completed. -/
theorem simRun_reach (rs : List ℚ) : ∀ s : SimState, SimInv s →
    (∀ r ∈ rs, 0 ≤ r) → 100 ≤ s.progress + 15 * rs.sum →
    (simRun s rs).status = Status.completed := by
  induction rs with
  | nil =>
    intro s hs _ hsum
    have h100 : s.progress = 100 := le_antisymm (simInv_le100 s hs) (by simpa using hsum)
    exact (simInv_completed_iff s hs).mpr h100
  | cons r rs ih =>
    intro s hs hr hsum
    have hr0 : 0 ≤ r := hr r (List.mem_cons_self r rs)
    have hrt : ∀ x ∈ rs, 0 ≤ x := fun x hx => hr x (List.mem_cons_of_mem r hx)
    by_cases hc : s.status = Status.completed
    · rw [simRun_frozen (r :: rs) s hs hc]; exact hc
    · have ha : s.active = true := by
        cases hh : s.active
        · exact absurd ((simInv_inactive_iff s hs).mp hh) hc
        · rfl
      show (simRun (simTick s r) rs).status = Status.completed
      by_cases hp : 100 ≤ s.progress + tickIncrement r
      · have ht : simTick s r = { progress := 100, status := Status.completed, active := false } := by
          unfold simTick; rw [if_pos ha, if_pos hp]
        have hinv : SimInv ({ progress := 100, status := Status.completed, active := false } : SimState) := by
          unfold SimInv
          refine ⟨by norm_num, le_refl 100, by simp, by simp, by decide⟩
        rw [ht, simRun_frozen rs _ hinv rfl]
      · apply ih (simTick s r) (simTick_inv s r hs hr0) hrt
        have ht : simTick s r = { progress := s.progress + tickIncrement r, status := s.status, active := true } := by
          unfold simTick; rw [if_pos ha, if_neg hp]
        rw [ht]
        show 100 ≤ s.progress + tickIncrement r + 15 * rs.sum
        have hsum' : 100 ≤ s.progress + 15 * (r + rs.sum) := by simpa using hsum
        unfold tickIncrement
        linarith

/-- Observing the run after j ticks equals continuing from the observation
after i ticks, for i at most j. -/
theorem simRun_take_split (rs : List ℚ) (i j : ℕ) (hij : i ≤ j) :
    simRun simInit (rs.take j) =
      simRun (simRun simInit (rs.take i)) ((rs.drop i).take (j - i)) := by
  have h : rs.take j = rs.take i ++ (rs.drop i).take (j - i) := by
    conv_lhs => rw [show j = i + (j - i) from by omega]
    exact List.take_add rs i (j - i)
  rw [h]
  unfold simRun
  rw [List.foldl_append]

/-- C1: for a record driven by simulateUpload, over every sequence of
Math.random() draws, the observed progress after successive ticks is
monotonically non-decreasing and never exceeds 100; the status is
Completed exactly when progress equals 100, so the value 100 is hit by at
most one update and with the status set to Completed in that same update;
from any observation with status Completed the state never changes again;
and whenever the drawn increments amount to at least 100 the run does
reach progress 100 and status Completed. -/
theorem C1_simulator_progress_invariant (rs : List ℚ) (hr : ∀ r ∈ rs, 0 ≤ r) :
    (∀ i j : ℕ, i ≤ j →
      (simRun simInit (rs.take i)).progress ≤ (simRun simInit (rs.take j)).progress) ∧
    (∀ i : ℕ, (simRun simInit (rs.take i)).progress ≤ 100) ∧
    (∀ i : ℕ, (simRun simInit (rs.take i)).status = Status.completed ↔
      (simRun simInit (rs.take i)).progress = 100) ∧
    (∀ i j : ℕ, i ≤ j → (simRun simInit (rs.take i)).status = Status.completed →
      simRun simInit (rs.take j) = simRun simInit (rs.take i)) ∧
    (100 ≤ 15 * rs.sum → (simRun simInit rs).status = Status.completed) := by
  have hmem : ∀ i : ℕ, ∀ r ∈ rs.take i, 0 ≤ r :=
    fun i r hri => hr r (List.take_subset i rs hri)
  have hrest : ∀ i j : ℕ, ∀ r ∈ (rs.drop i).take (j - i), 0 ≤ r :=
    fun i j r hri => hr r (List.drop_subset i rs (List.take_subset (j - i) _ hri))
  have hinv : ∀ i : ℕ, SimInv (simRun simInit (rs.take i)) :=
    fun i => simRun_inv _ _ simInv_init (hmem i)
  refine ⟨?_, ?_, ?_, ?_, ?_⟩
  · intro i j hij
    rw [simRun_take_split rs i j hij]
    exact simRun_progress_le _ _ (hinv i) (hrest i j)
  · intro i
    exact simInv_le100 _ (hinv i)
  · intro i
    exact simInv_completed_iff _ (hinv i)
  · intro i j hij hci
    rw [simRun_take_split rs i j hij]
    exact simRun_frozen _ _ (hinv i) hci
  · intro hsum
    apply simRun_reach rs simInit simInv_init hr
    show (100 : ℚ) ≤ 0 + 15 * rs.sum
    linarith

/-- Witness for C1 at the concrete draw sequence 7, 0, 2. -/
theorem C1_simulator_progress_invariant_witness :
    (∀ r ∈ ([7, 0, 2] : List ℚ), 0 ≤ r) ∧
    (simRun simInit (([7, 0, 2] : List ℚ).take 1)).progress ≤
      (simRun simInit (([7, 0, 2] : List ℚ).take 3)).progress := by
  have h : ∀ r ∈ ([7, 0, 2] : List ℚ), 0 ≤ r := by
    intro r hrr
    fin_cases hrr <;> norm_num
  exact ⟨h, (C1_simulator_progress_invariant [7, 0, 2] h).1 1 3 (by norm_num)⟩

/-- C6 counterexample: Math.random() may return 0, a draw allowed by its
contract, and then the tick increment is 0, which is not strictly
positive, so the increment is not drawn from the interval (0, 15]. -/
theorem C6_increment_range_counterexample :
    (0 : ℚ) ≤ 0 ∧ (0 : ℚ) < 1 ∧ ¬ 0 < tickIncrement 0 := by
  norm_num [tickIncrement]

/-- C6 (amended): with r = Math.random() drawn from [0, 1), the tick
increment r * 15 lies in the half-open interval [0, 15) — non-negative and
strictly below 15, not (0, 15].  While the task is active, a tick whose
result reaches 100 sets progress to exactly 100 and status to Completed in
the same single update and clears the interval; otherwise it only adds the
increment to progress.  A terminated task never changes state again. -/
theorem C6_tick_behavior (s : SimState) (r : ℚ) (ha : s.active = true)
    (h0 : 0 ≤ r) (h1 : r < 1) :
    0 ≤ tickIncrement r ∧ tickIncrement r < 15 ∧
    (100 ≤ s.progress + tickIncrement r →
      simTick s r = { progress := 100, status := Status.completed, active := false }) ∧
    (s.progress + tickIncrement r < 100 →
      simTick s r = { progress := s.progress + tickIncrement r, status := s.status, active := true }) ∧
    (∀ r2 : ℚ, simTick { progress := 100, status := Status.completed, active := false } r2 =
      { progress := 100, status := Status.completed, active := false }) := by
  refine ⟨by unfold tickIncrement; positivity, ?_, ?_, ?_, ?_⟩
  · have h15 := mul_lt_mul_of_pos_right h1 (show (0 : ℚ) < 15 by norm_num)
    unfold tickIncrement
    simpa using h15
  · intro hp; unfold simTick; rw [if_pos ha, if_pos hp]
  · intro hp; unfold simTick; rw [if_pos ha, if_neg (not_le.mpr hp)]
  · intro r2; simp [simTick]

/-- Witness for C6 (amended) at the initial state and the draw 1/2. -/
theorem C6_tick_behavior_witness :
    simInit.active = true ∧ (0 : ℚ) ≤ 1/2 ∧ (1 : ℚ)/2 < 1 ∧
      0 ≤ tickIncrement (1/2) ∧ tickIncrement (1/2) < 15 :=
  ⟨rfl, by norm_num, by norm_num,
    (C6_tick_behavior simInit (1/2) rfl (by norm_num) (by norm_num)).1,
    (C6_tick_behavior simInit (1/2) rfl (by norm_num) (by norm_num)).2.1⟩

/-- validateFile rejects an oversize file and emits exactly its one
destructive toast. -/
theorem validateFile_oversize (m : Nat) (f : RawFile)
    (h : m * 1024 * 1024 < f.size) :
    validateFile m f = (false, [oversizeToast m f]) := by
  unfold validateFile
  rw [if_pos h]

/-- validateFile accepts a file within the limit and emits nothing. -/
theorem validateFile_ok (m : Nat) (f : RawFile)
    (h : ¬ m * 1024 * 1024 < f.size) :
    validateFile m f = (true, []) := by
  unfold validateFile
  rw [if_neg h]

/-- stageBatch distributes over concatenation of batches, both in the
staged records and in the emitted toasts. -/
theorem stageBatch_append (m : Nat) (idOf : RawFile → String)
    (pv : RawFile → Option String) (l1 l2 : List RawFile) :
    stageBatch m idOf pv (l1 ++ l2) =
      ((stageBatch m idOf pv l1).1 ++ (stageBatch m idOf pv l2).1,
       (stageBatch m idOf pv l1).2 ++ (stageBatch m idOf pv l2).2) := by
  induction l1 with
  | nil => simp [stageBatch]
  | cons f t ih =>
    simp only [List.cons_append, stageBatch, List.append_eq]
    rw [ih]
    by_cases hv : (validateFile m f).1 = true
    · simp [hv, List.append_assoc]
    · simp [hv, List.append_assoc]

/-- A batch consisting of one oversize file stages nothing and emits its
single rejection toast. -/
theorem stageBatch_oversize_singleton (m : Nat) (idOf : RawFile → String)
    (pv : RawFile → Option String) (f : RawFile)
    (h : m * 1024 * 1024 < f.size) :
    stageBatch m idOf pv [f] = ([], [oversizeToast m f]) := by
  simp [stageBatch, validateFile_oversize m f h]

/-- C2: a file whose size exceeds maxFileSize MB is rejected by
validateFile with exactly one destructive toast whose text carries the
file name and the configured limit; removing the file from a batch leaves
the staged collection and the onFileSelect invocations of handleFiles
unchanged, and the full toast stream contains exactly the one extra
rejection toast for it. -/
theorem C2_oversize_never_staged (m : Nat) (multiple : Bool)
    (idOf : RawFile → String) (pv : RawFile → Option String)
    (prev : List StagedFile) (fs1 fs2 : List RawFile) (f : RawFile)
    (hsize : m * 1024 * 1024 < f.size) :
    (validateFile m f).1 = false ∧
    (validateFile m f).2 = [oversizeToast m f] ∧
    (oversizeToast m f).destructive = true ∧
    (∃ u v, (oversizeToast m f).description.data = u ++ f.name.data ++ v) ∧
    (∃ u v, (oversizeToast m f).description.data = u ++ (toString m).data ++ v) ∧
    (handleFiles m multiple idOf pv prev (fs1 ++ f :: fs2)).staged =
      (handleFiles m multiple idOf pv prev (fs1 ++ fs2)).staged ∧
    (handleFiles m multiple idOf pv prev (fs1 ++ f :: fs2)).callbacks =
      (handleFiles m multiple idOf pv prev (fs1 ++ fs2)).callbacks ∧
    (handleFiles m multiple idOf pv prev (fs1 ++ f :: fs2)).toasts =
      (stageBatch m idOf pv fs1).2 ++ oversizeToast m f ::
        ((stageBatch m idOf pv fs2).2 ++
          [uploadCompletedToast (stageBatch m idOf pv (fs1 ++ fs2)).1.length]) := by
  have hv := validateFile_oversize m f hsize
  have hcons : stageBatch m idOf pv (f :: fs2) =
      ((stageBatch m idOf pv fs2).1, oversizeToast m f :: (stageBatch m idOf pv fs2).2) := by
    simp [stageBatch, hv]
  refine ⟨by rw [hv], by rw [hv], rfl, ?_, ?_, ?_, ?_, ?_⟩
  · exact ⟨[], (" exceeds " ++ toString m ++ "MB limit").data,
      by simp [oversizeToast, String.data_append]⟩
  · exact ⟨(f.name ++ " exceeds ").data, "MB limit".data,
      by simp [oversizeToast, String.data_append]⟩
  · simp [handleFiles, stageBatch_append, hcons]
  · simp [handleFiles, stageBatch_append, hcons]
  · simp [handleFiles, stageBatch_append, hcons]

/-- Witness for C2 at the concrete oversize file and the default 25MB
limit. -/
theorem C2_oversize_never_staged_witness :
    25 * 1024 * 1024 < oversizedRaw.size ∧
    (validateFile 25 oversizedRaw).1 = false :=
  ⟨by norm_num [oversizedRaw],
    (C2_oversize_never_staged 25 true (fun _ => "id") (fun _ => none) [] [] []
      oversizedRaw (by norm_num [oversizedRaw])).1⟩

/-- A batch in which every file is oversize stages nothing and emits one
rejection toast per file, in order. -/
theorem stageBatch_all_rejected (m : Nat) (idOf : RawFile → String)
    (pv : RawFile → Option String) (files : List RawFile)
    (h : ∀ f ∈ files, m * 1024 * 1024 < f.size) :
    stageBatch m idOf pv files = ([], files.map (oversizeToast m)) := by
  induction files with
  | nil => rfl
  | cons f t ih =>
    have hv := validateFile_oversize m f (h f (List.mem_cons_self f t))
    simp [stageBatch, hv, ih (fun x hx => h x (List.mem_cons_of_mem f hx))]

/-- C10: when every file of a batch is rejected by validation, handleFiles
still runs to completion: onFileSelect is invoked exactly once, with the
empty record list; the toast stream is the per-file rejection toasts
followed by the non-destructive completion toast reporting 0 files; and
the staged collection is left as it was (previous records in multiple
mode, empty otherwise). -/
theorem C10_all_rejected_batch (m : Nat) (multiple : Bool)
    (idOf : RawFile → String) (pv : RawFile → Option String)
    (prev : List StagedFile) (files : List RawFile)
    (h : ∀ f ∈ files, m * 1024 * 1024 < f.size) :
    (handleFiles m multiple idOf pv prev files).callbacks = [[]] ∧
    (handleFiles m multiple idOf pv prev files).toasts =
      files.map (oversizeToast m) ++ [uploadCompletedToast 0] ∧
    (uploadCompletedToast 0).destructive = false ∧
    (uploadCompletedToast 0).description = "0 file(s) uploaded successfully" ∧
    (handleFiles m multiple idOf pv prev files).staged =
      (if multiple then prev else []) := by
  have hs := stageBatch_all_rejected m idOf pv files h
  refine ⟨?_, ?_, rfl, by decide, ?_⟩ <;> simp [handleFiles, hs]

/-- Witness for C10 at a one-file batch holding the concrete oversize
file. -/
theorem C10_all_rejected_batch_witness :
    (∀ f ∈ [oversizedRaw], 25 * 1024 * 1024 < f.size) ∧
    (handleFiles 25 true (fun _ => "id") (fun _ => none) [] [oversizedRaw]).callbacks = [[]] := by
  have h : ∀ f ∈ [oversizedRaw], 25 * 1024 * 1024 < f.size := by
    intro f hf
    fin_cases hf
    norm_num [oversizedRaw]
  exact ⟨h, (C10_all_rejected_batch 25 true (fun _ => "id") (fun _ => none) [] [oversizedRaw] h).1⟩

/-- C3 counterexample: for an image file whose FileReader read fails, the
generatePreview promise never settles (its executor installs no error
handler), so it does not resolve to the absent preview; with handleFiles
awaiting this promise, the file does not finish staging. -/
theorem C3_preview_failure_counterexample :
    generatePreview "image/png" ReadOutcome.failure = PreviewResult.pending ∧
    generatePreview "image/png" ReadOutcome.failure ≠ PreviewResult.resolved none := by
  decide

/-- C3 (amended): generatePreview resolves immediately to the absent
preview for every non-image file, and resolves with the encoded data for
an image file whose read succeeds; but for an image file whose read fails
it never settles — the claimed fallback to an absent preview does not
exist, and such a file never completes staging. -/
theorem C3_preview_settlement (t d : String) :
    (jsStartsWith t "image/" = false →
      ∀ o : ReadOutcome, generatePreview t o = PreviewResult.resolved none) ∧
    (jsStartsWith t "image/" = true →
      generatePreview t (ReadOutcome.success d) = PreviewResult.resolved (some d)) ∧
    (jsStartsWith t "image/" = true →
      generatePreview t ReadOutcome.failure = PreviewResult.pending) := by
  refine ⟨?_, ?_, ?_⟩
  · intro h o
    simp [generatePreview, h]
  · intro h
    simp [generatePreview, h]
  · intro h
    simp [generatePreview, h]

/-- Witness for C3 (amended) at a text file and a png image. -/
theorem C3_preview_settlement_witness :
    generatePreview "text/plain" ReadOutcome.failure = PreviewResult.resolved none ∧
    generatePreview "image/png" (ReadOutcome.success "DATA") = PreviewResult.resolved (some "DATA") ∧
    generatePreview "image/png" ReadOutcome.failure = PreviewResult.pending :=
  ⟨(C3_preview_settlement "text/plain" "x").1 (by decide) ReadOutcome.failure,
   (C3_preview_settlement "image/png" "DATA").2.1 (by decide),
   (C3_preview_settlement "image/png" "x").2.2 (by decide)⟩

/-- Inserting an element behaves identically under two order relations
that agree between the element and every list member. -/
theorem orderedInsert_congr {α : Type} (r s : α → α → Prop)
    [DecidableRel r] [DecidableRel s] (a : α) (l : List α)
    (h : ∀ b ∈ l, (r a b ↔ s a b)) :
    List.orderedInsert r a l = List.orderedInsert s a l := by
  induction l with
  | nil => rfl
  | cons b t ih =>
    simp only [List.orderedInsert]
    by_cases hb : r a b
    · rw [if_pos hb, if_pos ((h b (List.mem_cons_self b t)).mp hb)]
    · rw [if_neg hb, if_neg (fun hs => hb ((h b (List.mem_cons_self b t)).mpr hs)),
        ih (fun c hc => h c (List.mem_cons_of_mem b hc))]

/-- Insertion sort produces identical output under two order relations
that agree on the members of the list. -/
theorem insertionSort_congr {α : Type} (r s : α → α → Prop)
    [DecidableRel r] [DecidableRel s] (l : List α)
    (h : ∀ a ∈ l, ∀ b ∈ l, (r a b ↔ s a b)) :
    List.insertionSort r l = List.insertionSort s l := by
  induction l with
  | nil => rfl
  | cons a t ih =>
    simp only [List.insertionSort]
    rw [ih (fun x hx y hy => h x (List.mem_cons_of_mem a hx) y (List.mem_cons_of_mem a hy))]
    apply orderedInsert_congr
    intro b hb
    have hbt : b ∈ t := (List.perm_insertionSort s t).mem_iff.mp hb
    exact h a (List.mem_cons_self a t) b (List.mem_cons_of_mem a hbt)

/-- C4 counterexample: with sort key date, the same query over the same
two-record collection (one record undated, one dated 200) yields different
orders when evaluated at query times 100 and 300, because the missing
uploadDate is replaced by new Date() at each evaluation.  The ordered
outputs differ, so re-evaluating the unchanged collection is not
guaranteed to reproduce the same output. -/
theorem C4_date_sort_counterexample :
    (filteredAndSortedFiles trivialLocCmp "" "all" SortKey.date SortOrder.asc 100
      [undatedFile, datedFile]).map MFile.id = ["a", "b"] ∧
    (filteredAndSortedFiles trivialLocCmp "" "all" SortKey.date SortOrder.asc 300
      [undatedFile, datedFile]).map MFile.id = ["b", "a"] ∧
    (filteredAndSortedFiles trivialLocCmp "" "all" SortKey.date SortOrder.asc 100
      [undatedFile, datedFile]).map MFile.id ≠
      (filteredAndSortedFiles trivialLocCmp "" "all" SortKey.date SortOrder.asc 300
        [undatedFile, datedFile]).map MFile.id := by
  decide

/-- C4 (amended): the query engine is a pure function of the collection
and the query parameters, so two evaluations agree, provided the sort key
is not date or every record carries an uploadDate; in the remaining case —
date sort with undated records — the output can depend on the evaluation
time, as the counterexample shows. -/
theorem C4_query_determinism (locCmp : String → String → Int)
    (searchTerm filterType : String) (sortBy : SortKey) (sortOrder : SortOrder)
    (files : List MFile)
    (h : sortBy ≠ SortKey.date ∨ ∀ f ∈ files, f.uploadDate ≠ none) :
    ∀ now1 now2 : Int,
      filteredAndSortedFiles locCmp searchTerm filterType sortBy sortOrder now1 files =
        filteredAndSortedFiles locCmp searchTerm filterType sortBy sortOrder now2 files := by
  intro now1 now2
  unfold filteredAndSortedFiles
  apply insertionSort_congr
  intro a ha b hb
  have hfa : a ∈ files := (List.mem_filter.mp ha).1
  have hfb : b ∈ files := (List.mem_filter.mp hb).1
  cases sortBy with
  | name => cases sortOrder <;> exact Iff.rfl
  | size => cases sortOrder <;> exact Iff.rfl
  | date =>
    rcases h with hne | hall
    · exact absurd rfl hne
    · obtain ⟨da, hda⟩ := Option.ne_none_iff_exists'.mp (hall a hfa)
      obtain ⟨db, hdb⟩ := Option.ne_none_iff_exists'.mp (hall b hfb)
      cases sortOrder <;> simp [fileLE, signedComparison, fileComparison, hda, hdb]

/-- Witness for C4 (amended): size sort over the demo collection agrees at
query times 0 and 5. -/
theorem C4_query_determinism_witness :
    (SortKey.size ≠ SortKey.date ∨ ∀ f ∈ sizeDemo, f.uploadDate ≠ none) ∧
    filteredAndSortedFiles trivialLocCmp "" "all" SortKey.size SortOrder.asc 0 sizeDemo =
      filteredAndSortedFiles trivialLocCmp "" "all" SortKey.size SortOrder.asc 5 sizeDemo :=
  ⟨Or.inl (by decide),
    C4_query_determinism trivialLocCmp "" "all" SortKey.size SortOrder.asc sizeDemo
      (Or.inl (by decide)) 0 5⟩

/-- C5: deleting a record does not purge it from the multi-select state.
After clicking the record with id a under multi-select (selecting it) and
then running the delete path for that id, the id is forwarded to
onFileDelete but the selection still contains it: handleDelete contains no
setSelectedFiles call, contradicting the requirement that deletion also
remove the id from selectedIds. -/
theorem C5_delete_keeps_selection :
    handleFileClick true [] undatedFile = ["a"] ∧
    (handleDelete (handleFileClick true [] undatedFile) "a").deletedId = some "a" ∧
    ((handleDelete (handleFileClick true [] undatedFile) "a").selectedAfter).contains "a" = true := by
  decide

/-- Folding size accumulation equals the starting value plus the sum of
sizes. -/
theorem foldl_size_eq_sum (l : List MFile) :
    ∀ n : Nat, l.foldl (fun acc f => acc + f.size) n = n + (l.map MFile.size).sum := by
  induction l with
  | nil => intro n; simp
  | cons f t ih =>
    intro n
    simp only [List.foldl_cons, List.map_cons, List.sum_cons, ih]
    omega

/-- C7: the derived view contains exactly the records of the collection
whose lower-cased name contains the lower-cased search term and whose
derived category equals the filter category, the latter vacuous when the
filter is all; and the displayed total size is the sum of sizes over the
filtered view, not over the full collection. -/
theorem C7_filter_semantics (locCmp : String → String → Int)
    (searchTerm filterType : String) (sortBy : SortKey) (sortOrder : SortOrder)
    (now : Int) (files : List MFile) :
    (∀ f : MFile,
      f ∈ filteredAndSortedFiles locCmp searchTerm filterType sortBy sortOrder now files ↔
        (f ∈ files ∧ strIncludes (jsToLower f.name) (jsToLower searchTerm) = true ∧
          (filterType = "all" ∨ getFileCategory f = filterType))) ∧
    viewTotalSize locCmp searchTerm filterType sortBy sortOrder now files =
      ((files.filter (matchesQuery searchTerm filterType)).map MFile.size).sum := by
  constructor
  · intro f
    unfold filteredAndSortedFiles
    rw [(List.perm_insertionSort (fileLE locCmp sortBy sortOrder now) _).mem_iff,
      List.mem_filter]
    simp only [matchesQuery, Bool.and_eq_true, Bool.or_eq_true, beq_iff_eq]
  · have hp : (filteredAndSortedFiles locCmp searchTerm filterType sortBy sortOrder now files).Perm
        (files.filter (matchesQuery searchTerm filterType)) := by
      unfold filteredAndSortedFiles
      exact List.perm_insertionSort _ _
    unfold viewTotalSize
    rw [foldl_size_eq_sum]
    simpa using (hp.map MFile.size).sum_eq

/-- The comparator is consistent: swapping the arguments negates the
result, provided the underlying locale comparison is itself consistent. -/
theorem signedComparison_antisymm (locCmp : String → String → Int)
    (hc : ∀ s t, locCmp s t = - locCmp t s) (sortBy : SortKey)
    (sortOrder : SortOrder) (now : Int) (a b : MFile) :
    signedComparison locCmp sortBy sortOrder now a b =
      - signedComparison locCmp sortBy sortOrder now b a := by
  cases sortBy <;> cases sortOrder <;>
    simp [signedComparison, fileComparison, hc a.name b.name]

/-- Mapping away the position tags commutes with inserting into the
tagged sort, since the order relation only reads the record component. -/
theorem orderedInsert_tag_map (locCmp : String → String → Int)
    (sortBy : SortKey) (sortOrder : SortOrder) (now : Int)
    (x : ℕ × MFile) (l : List (ℕ × MFile)) :
    (List.orderedInsert (tagLE locCmp sortBy sortOrder now) x l).map Prod.snd =
      List.orderedInsert (fileLE locCmp sortBy sortOrder now) x.2 (l.map Prod.snd) := by
  induction l with
  | nil => rfl
  | cons y t ih =>
    simp only [List.orderedInsert, List.map_cons]
    by_cases hxy : tagLE locCmp sortBy sortOrder now x y
    · rw [if_pos hxy, if_pos (show fileLE locCmp sortBy sortOrder now x.2 y.2 from hxy)]
      simp
    · rw [if_neg hxy, if_neg (show ¬ fileLE locCmp sortBy sortOrder now x.2 y.2 from hxy)]
      simp [ih]

/-- Sorting the tagged list and then dropping the tags equals sorting the
untagged list: the tagged sort is the engine sort with positions carried
along. -/
theorem insertionSort_tag_map (locCmp : String → String → Int)
    (sortBy : SortKey) (sortOrder : SortOrder) (now : Int)
    (l : List (ℕ × MFile)) :
    (List.insertionSort (tagLE locCmp sortBy sortOrder now) l).map Prod.snd =
      List.insertionSort (fileLE locCmp sortBy sortOrder now) (l.map Prod.snd) := by
  induction l with
  | nil => rfl
  | cons x t ih =>
    simp only [List.insertionSort, List.map_cons]
    rw [orderedInsert_tag_map, ih]

/-- Inserting an element whose tag is below every list tag preserves the
stability relation: ties keep ascending tags. -/
theorem orderedInsert_tag_stable (locCmp : String → String → Int)
    (hc : ∀ s t, locCmp s t = - locCmp t s) (sortBy : SortKey)
    (sortOrder : SortOrder) (now : Int) (x : ℕ × MFile) :
    ∀ m : List (ℕ × MFile),
      m.Pairwise (fun a b =>
        signedComparison locCmp sortBy sortOrder now a.2 b.2 = 0 → a.1 < b.1) →
      (∀ y ∈ m, x.1 < y.1) →
      (List.orderedInsert (tagLE locCmp sortBy sortOrder now) x m).Pairwise
        (fun a b =>
          signedComparison locCmp sortBy sortOrder now a.2 b.2 = 0 → a.1 < b.1) := by
  intro m
  induction m with
  | nil =>
    intro _ _
    simp
  | cons y t ih =>
    intro hm hx
    simp only [List.orderedInsert]
    by_cases hxy : tagLE locCmp sortBy sortOrder now x y
    · rw [if_pos hxy]
      refine List.Pairwise.cons ?_ hm
      intro c hcm
      exact fun _ => hx c hcm
    · rw [if_neg hxy]
      refine List.Pairwise.cons ?_
        (ih hm.of_cons (fun c hct => hx c (List.mem_cons_of_mem y hct)))
      intro c hcm
      have hc2 : c = x ∨ c ∈ t := by
        have hmem := (List.perm_orderedInsert
          (tagLE locCmp sortBy sortOrder now) x t).mem_iff.mp hcm
        simpa using hmem
      rcases hc2 with rfl | hct
      · intro h0
        exfalso
        have hgt : ¬ signedComparison locCmp sortBy sortOrder now c.2 y.2 ≤ 0 := hxy
        have ha := signedComparison_antisymm locCmp hc sortBy sortOrder now y.2 c.2
        omega
      · exact List.rel_of_pairwise_cons hm hct

/-- Sorting a list whose tags strictly ascend yields an output in which
every tied pair keeps ascending tags: the sort is stable. -/
theorem insertionSort_tag_stable (locCmp : String → String → Int)
    (hc : ∀ s t, locCmp s t = - locCmp t s) (sortBy : SortKey)
    (sortOrder : SortOrder) (now : Int) :
    ∀ l : List (ℕ × MFile), l.Pairwise (fun a b => a.1 < b.1) →
      (List.insertionSort (tagLE locCmp sortBy sortOrder now) l).Pairwise
        (fun a b =>
          signedComparison locCmp sortBy sortOrder now a.2 b.2 = 0 → a.1 < b.1) := by
  intro l
  induction l with
  | nil =>
    intro _
    simp
  | cons x t ih =>
    intro hl
    simp only [List.insertionSort]
    apply orderedInsert_tag_stable locCmp hc sortBy sortOrder now x _ (ih hl.of_cons)
    intro y hy
    exact List.rel_of_pairwise_cons hl
      ((List.perm_insertionSort (tagLE locCmp sortBy sortOrder now) t).mem_iff.mp hy)

/-- C8: sorting the collection with sizes 50, 10, 30 by size ascending
yields sizes 10, 30, 50; toggling to descending yields exactly the
reverse of the ascending output; and the sort is stable for every sort
key and order with a consistent locale comparison: tagging the input with
its positions, the engine sort keeps every tied pair in ascending
position order, and dropping the tags recovers the engine output. -/
theorem C8_size_sort_behavior (locCmp : String → String → Int)
    (hc : ∀ s t, locCmp s t = - locCmp t s) (sortBy : SortKey)
    (sortOrder : SortOrder) (now : Int) (l : List (ℕ × MFile))
    (htags : l.Pairwise (fun a b => a.1 < b.1)) :
    (filteredAndSortedFiles trivialLocCmp "" "all" SortKey.size SortOrder.asc 0
      sizeDemo).map MFile.size = [10, 30, 50] ∧
    (filteredAndSortedFiles trivialLocCmp "" "all" SortKey.size SortOrder.desc 0
      sizeDemo).map MFile.id =
      ((filteredAndSortedFiles trivialLocCmp "" "all" SortKey.size SortOrder.asc 0
        sizeDemo).map MFile.id).reverse ∧
    (List.insertionSort (tagLE locCmp sortBy sortOrder now) l).map Prod.snd =
      List.insertionSort (fileLE locCmp sortBy sortOrder now) (l.map Prod.snd) ∧
    (List.insertionSort (tagLE locCmp sortBy sortOrder now) l).Pairwise
      (fun a b =>
        signedComparison locCmp sortBy sortOrder now a.2 b.2 = 0 → a.1 < b.1) :=
  ⟨by decide, by decide,
    insertionSort_tag_map locCmp sortBy sortOrder now l,
    insertionSort_tag_stable locCmp hc sortBy sortOrder now l htags⟩

/-- Witness for C8 at the trivial locale comparison and the tagged demo
collection. -/
theorem C8_size_sort_behavior_witness :
    (∀ s t, trivialLocCmp s t = - trivialLocCmp t s) ∧
    (([(0, sizeFile50), (1, sizeFile10), (2, sizeFile30)] :
      List (ℕ × MFile)).Pairwise (fun a b => a.1 < b.1)) ∧
    (filteredAndSortedFiles trivialLocCmp "" "all" SortKey.size SortOrder.asc 0
      sizeDemo).map MFile.size = [10, 30, 50] := by
  have hc : ∀ s t, trivialLocCmp s t = - trivialLocCmp t s := fun _ _ => neg_zero.symm
  have ht : (([(0, sizeFile50), (1, sizeFile10), (2, sizeFile30)] :
      List (ℕ × MFile)).Pairwise (fun a b => a.1 < b.1)) := by decide
  exact ⟨hc, ht,
    (C8_size_sort_behavior trivialLocCmp hc SortKey.size SortOrder.asc 0
      [(0, sizeFile50), (1, sizeFile10), (2, sizeFile30)] ht).1⟩

/-- C9 counterexample: the mime type image/pdf contains pdf yet the
classifier maps it to image, because the image/ prefix rule fires first —
so a mime type containing pdf is not always mapped to category pdf. -/
theorem C9_pdf_classifier_counterexample :
    strIncludes imagePdfFile.type "pdf" = true ∧
    getFileCategory imagePdfFile = "image" ∧
    getFileCategory imagePdfFile ≠ "pdf" := by
  decide

/-- C9 (amended): a mime type containing pdf that is not captured by the
earlier image/, video/ or audio/ prefix rules is classified pdf, and a
mime type containing pdf is never classified document; filtering the
pdf, png, docx collection by category document yields exactly one record,
the docx; and the classifier is total with default category other, its
range being the seven listed categories. -/
theorem C9_pdf_category (f : MFile)
    (hpdf : strIncludes f.type "pdf" = true) :
    (jsStartsWith f.type "image/" = false → jsStartsWith f.type "video/" = false →
      jsStartsWith f.type "audio/" = false → getFileCategory f = "pdf") ∧
    getFileCategory f ≠ "document" ∧
    (filteredAndSortedFiles trivialLocCmp "" "document" SortKey.name SortOrder.asc 0
      [pdfFile, pngFile, docxFile]).map MFile.name = ["notes.docx"] ∧
    (∀ g : MFile, getFileCategory g ∈
      (["image", "video", "audio", "pdf", "document", "archive", "other"] :
        List String)) := by
  refine ⟨?_, ?_, by decide, ?_⟩
  · intro h1 h2 h3
    simp [getFileCategory, h1, h2, h3, hpdf]
  · by_cases h1 : jsStartsWith f.type "image/" = true
    · simp [getFileCategory, h1]
    · by_cases h2 : jsStartsWith f.type "video/" = true
      · simp [getFileCategory, h1, h2]
      · by_cases h3 : jsStartsWith f.type "audio/" = true
        · simp [getFileCategory, h1, h2, h3]
        · simp [getFileCategory, h1, h2, h3, hpdf]
  · intro g
    unfold getFileCategory
    repeat' split
    all_goals decide

/-- Witness for C9 (amended) at the concrete pdf record. -/
theorem C9_pdf_category_witness :
    strIncludes pdfFile.type "pdf" = true ∧ getFileCategory pdfFile ≠ "document" :=
  ⟨by decide, (C9_pdf_category pdfFile (by decide)).2.1⟩
